import Mathlib

/-!
Verification development for the grant-vote backend (`app/routes.py`,
`app/models.py`).  The vote ledger is modelled as a list of rows in scan
order (insertion order); handlers are modelled as pure functions over it,
returning `Except Nat _` where the `Nat` is the HTTP status code raised
via `HTTPException`.
-/

namespace GrantVotes

/-- A naive datetime as produced by `datetime.utcnow()` / the database
`func.now()` default: calendar fields, compared lexicographically. -/
structure PyDateTime where
  year : Nat
  month : Nat
  day : Nat
  hour : Nat
  minute : Nat
  second : Nat
  microsecond : Nat
deriving DecidableEq

/-- Lexicographic comparison of `Nat` tuples. -/
def natTupleLe : List Nat → List Nat → Bool
  | [], _ => true
  | _ :: _, [] => false
  | a :: as, b :: bs => if a < b then true else if b < a then false else natTupleLe as bs

def dtKey (t : PyDateTime) : List Nat :=
  [t.year, t.month, t.day, t.hour, t.minute, t.second, t.microsecond]

/-- Order on datetimes (calendar order). -/
def dtLe (a b : PyDateTime) : Bool := natTupleLe (dtKey a) (dtKey b)

/-- The UTC calendar date of a datetime, as computed by SQL `date(timestamp)`
on the stored naive-UTC value (`app/routes.py` line 248). -/
def dateOf (t : PyDateTime) : Nat × Nat × Nat := (t.year, t.month, t.day)

/-- A row of the `votes` table (`app/models.py` lines 4-11): composite key
`(grant_id, researcher_id)`, an `action` string and a last-write timestamp. -/
structure Vote where
  grant_id : String
  researcher_id : String
  action : String
  timestamp : PyDateTime
deriving DecidableEq

/-- The full ledger scan, `db.query(Vote)` with no filter: the rows in scan
(insertion) order. -/
def ledgerScan (l : List Vote) : List Vote := l

/-- `v` is the row keyed by the pair `(g, r)`. -/
def isPair (v : Vote) (g r : String) : Bool :=
  v.grant_id = g && v.researcher_id = r

/-- Number of rows for the pair `(g, r)`. -/
def countPair (l : List Vote) (g r : String) : Nat :=
  l.countP (fun v => isPair v g r)

/-- Composite-key uniqueness: at most one row per `(grant_id, researcher_id)`
pair, the invariant enforced by the composite primary key. -/
abbrev uniquePairs (l : List Vote) : Prop :=
  l.Pairwise (fun u v => ¬(u.grant_id = v.grant_id ∧ u.researcher_id = v.researcher_id))

/-- The identity-relevant part of a row: everything except the timestamp. -/
def voteKey (v : Vote) : String × String × String :=
  (v.grant_id, v.researcher_id, v.action)

/-! ## Percent-decoding (`urllib.parse.unquote`) -/

def isHexDigit (c : Char) : Bool :=
  (Char.ofNat 48 ≤ c && c ≤ Char.ofNat 57) ||
  (Char.ofNat 65 ≤ c && c ≤ Char.ofNat 70) ||
  (Char.ofNat 97 ≤ c && c ≤ Char.ofNat 102)

def hexVal (c : Char) : Nat :=
  if Char.ofNat 48 ≤ c && c ≤ Char.ofNat 57 then c.toNat - 48
  else if Char.ofNat 65 ≤ c && c ≤ Char.ofNat 70 then c.toNat - 55
  else c.toNat - 87

/-- Character-level model of `urllib.parse.unquote`: each `%XX` escape with
two hex digits becomes the character with that code, malformed escapes are
left as-is.  Exact for ASCII escape targets, which is all the routes rely
on (multi-byte UTF-8 sequences are out of scope of the claims). -/
def unquoteChars : List Char → List Char
  | [] => []
  | c :: a :: b :: rest =>
    if c = Char.ofNat 37 && isHexDigit a && isHexDigit b then
      Char.ofNat (hexVal a * 16 + hexVal b) :: unquoteChars rest
    else
      c :: unquoteChars (a :: b :: rest)
  | c :: rest => c :: unquoteChars rest

def unquote (s : String) : String := String.mk (unquoteChars s.data)

/-! ## Identifier validation (`validate_id`, `app/routes.py` lines 28-39) -/

/-- Characters allowed for a grant id: `[A-Za-z0-9_-]`. -/
def grantAllowed (c : Char) : Bool :=
  c.isAlpha || c.isDigit || c = Char.ofNat 95 || c = Char.ofNat 45

/-- Characters allowed for a researcher id: letters, digits, space, comma,
apostrophe (character code 39), hyphen. -/
def researcherAllowed (c : Char) : Bool :=
  c.isAlpha || c.isDigit || c = Char.ofNat 32 || c = Char.ofNat 44 ||
  c = Char.ofNat 39 || c = Char.ofNat 45

/-- Python `re.match` of an anchored character-class pattern `[C]+` followed
by the dollar anchor: the dollar also matches just before one trailing
newline, so a value consisting of allowed characters plus a single final
newline is accepted. -/
def pyClassMatch (allowed : Char → Bool) (s : String) : Bool :=
  let cs := s.data
  let t := if cs.getLast? = some (Char.ofNat 10) then cs.dropLast else cs
  (!t.isEmpty) && t.all allowed

/-- Declarative counterpart of `pyClassMatch`, in the words of the spec
plus the trailing-newline exception of the dollar anchor: the decoded
value is nonempty and made only of allowed characters, or is such a value
followed by one final newline. -/
def pyAccepts (allowed : Char → Bool) (s : String) : Prop :=
  (s.data ≠ [] ∧ ∀ c ∈ s.data, allowed c = true) ∨
  (∃ ts : List Char, s.data = ts ++ [Char.ofNat 10] ∧ ts ≠ [] ∧
    ∀ c ∈ ts, allowed c = true)

/-- `validate_id` (`app/routes.py` lines 28-39): percent-decode, then match
the decoded value against the kind-specific class; HTTP 400 on failure,
and the decoded value is returned. -/
def validate_id (value : String) (name : String) : Except Nat String :=
  let v := unquote value
  if name = "researcher_id" then
    if pyClassMatch researcherAllowed v then .ok v else .error 400
  else
    if pyClassMatch grantAllowed v then .ok v else .error 400

/-! ## Ledger write operations -/

/-- The upsert body of `record_vote` (`app/routes.py` lines 51-61): the
first row matching the pair gets `action` and `timestamp` overwritten in
place; if none matches, a fresh row is added at the end of the scan.
`t` is the current time of the write (`datetime.utcnow()` on update, the
database `func.now()` default on insert). -/
def upsertVote : List Vote → String → String → String → PyDateTime → List Vote
  | [], g, r, a, t => [⟨g, r, a, t⟩]
  | v :: vs, g, r, a, t =>
    if isPair v g r then
      { v with action := a, timestamp := t } :: vs
    else
      v :: upsertVote vs g r a t

/-- Handler `record_vote` (`app/routes.py` lines 44-62): validates both
identifiers (discarding the decoded values), rejects actions outside
like/dislike with 400, then upserts the raw request values. -/
def record_vote (l : List Vote) (g r a : String) (t : PyDateTime) :
    Except Nat (List Vote) :=
  match validate_id g "grant_id" with
  | .error e => .error e
  | .ok _ =>
    match validate_id r "researcher_id" with
    | .error e => .error e
    | .ok _ =>
      if a = "like" || a = "dislike" then
        .ok (upsertVote l g r a t)
      else
        .error 400

/-- Point lookup: the first row matching the pair, `query(...).first()`. -/
def findVote (l : List Vote) (g r : String) : Option Vote :=
  l.find? (fun v => isPair v g r)

/-- Removal of the one row object returned by `.first()` (`db.delete`). -/
def removeFirstVote : List Vote → String → String → List Vote
  | [], _, _ => []
  | v :: vs, g, r => if isPair v g r then vs else v :: removeFirstVote vs g r

/-- The post-validation body of `delete_vote` (`app/routes.py` lines 71-81):
404 if no row matches the pair, otherwise delete the matched row. -/
def deleteVoteRow (l : List Vote) (g r : String) : Except Nat (List Vote) :=
  match findVote l g r with
  | none => .error 404
  | some _ => .ok (removeFirstVote l g r)

/-- Handler `delete_vote` (`app/routes.py` lines 67-81). -/
def delete_vote (l : List Vote) (g r : String) : Except Nat (List Vote) :=
  match validate_id g "grant_id" with
  | .error e => .error e
  | .ok _ =>
    match validate_id r "researcher_id" with
    | .error e => .error e
    | .ok _ => deleteVoteRow l g r

/-- The post-validation body of `get_researcher_vote` (`app/routes.py`
lines 106-110): the action of the pair row, or none. -/
def lookupAction (l : List Vote) (g r : String) : Option String :=
  (findVote l g r).map (fun v => v.action)

/-! ## Aggregations -/

/-- Likes counted for one grant as in `get_grant_votes` (`app/routes.py`
lines 88-93): rows with that grant id whose action equals the string. -/
def likesCount (l : List Vote) (g : String) : Nat :=
  (l.filter (fun v => v.grant_id = g)).countP (fun v => v.action = "like")

def dislikesCount (l : List Vote) (g : String) : Nat :=
  (l.filter (fun v => v.grant_id = g)).countP (fun v => v.action = "dislike")

/-- Response shape of `get_grant_votes`. -/
structure GrantCounts where
  grant_id : String
  likes : Nat
  dislikes : Nat
deriving DecidableEq

/-- Handler `get_grant_votes` (`app/routes.py` lines 85-93), after its
grant-id validation. -/
def get_grant_votes (l : List Vote) (g : String) : GrantCounts :=
  ⟨g, likesCount l g, dislikesCount l g⟩

/-- Response shape of `vote_ratio` (`app/routes.py` lines 162-168),
percentages as exact rationals. -/
structure RatioOut where
  grant_id : String
  likes : Nat
  dislikes : Nat
  like_percentage : ℚ
  dislike_percentage : ℚ
deriving DecidableEq

/-- The post-validation body of `vote_ratio` (`app/routes.py` lines
153-168): per-grant like/dislike counts; percentages `count/total*100`,
both `0.0` when the total is zero (Python truthiness guard). -/
def ratioForGrant (l : List Vote) (g : String) : RatioOut :=
  let likes := likesCount l g
  let dislikes := dislikesCount l g
  let total := likes + dislikes
  { grant_id := g, likes := likes, dislikes := dislikes,
    like_percentage := if total = 0 then 0 else (likes : ℚ) / (total : ℚ) * 100,
    dislike_percentage := if total = 0 then 0 else (dislikes : ℚ) / (total : ℚ) * 100 }

/-- Handler `vote_ratio` (`app/routes.py` lines 151-168). -/
def vote_ratio_route (l : List Vote) (g : String) : Except Nat RatioOut :=
  match validate_id g "grant_id" with
  | .error e => .error e
  | .ok _ => .ok (ratioForGrant l g)

/-- Helper for first-occurrence deduplication: drop the elements already
seen. -/
def dedupAux {α : Type} [DecidableEq α] : List α → List α → List α
  | [], _ => []
  | x :: xs, seen =>
    if x ∈ seen then dedupAux xs seen else x :: dedupAux xs (x :: seen)

/-- First-occurrence deduplication, the order the model fixes for SQL
`GROUP BY` output before the explicit `ORDER BY`. -/
def dedupF {α : Type} [DecidableEq α] (l : List α) : List α := dedupAux l []

/-- One aggregate row per distinct grant: `group_by(Vote.grant_id)` with
the like/dislike case sums (`app/routes.py` lines 128-135). -/
def grantGroups (l : List Vote) : List GrantCounts :=
  (dedupF (l.map (fun v => v.grant_id))).map (fun g => get_grant_votes l g)

/-- `order_by(likes_agg.desc())` as a relation: likes descending. -/
def byLikesDesc (x y : GrantCounts) : Prop := y.likes ≤ x.likes

instance : DecidableRel byLikesDesc := fun x y => Nat.decLe y.likes x.likes

/-- Handler `get_top_grants` (`app/routes.py` lines 127-147): group by
grant, order by likes descending (a stable sort models the SQL sort; tie
order is implementation-defined), truncate to `limit`. -/
def get_top_grants (l : List Vote) (limit : Nat) : List GrantCounts :=
  (List.insertionSort byLikesDesc (grantGroups l)).take limit

/-- `get_top_grants` with the declared default `limit: int = 10`. -/
def get_top_grants_default (l : List Vote) : List GrantCounts :=
  get_top_grants l 10

/-- One per-day aggregate of `vote_trend`. -/
structure TrendEntry where
  day : Nat × Nat × Nat
  count : Nat
deriving DecidableEq

/-- Ascending order on calendar dates, as SQL orders the `date(...)` value. -/
def dateLe (a b : Nat × Nat × Nat) : Prop :=
  natTupleLe [a.1, a.2.1, a.2.2] [b.1, b.2.1, b.2.2] = true

instance : DecidableRel dateLe := fun a b =>
  instDecidableEqBool (natTupleLe [a.1, a.2.1, a.2.2] [b.1, b.2.1, b.2.2]) true

/-- The post-validation body of `vote_trend` (`app/routes.py` lines
247-254): the grant rows grouped by `date(timestamp)`, one entry per
distinct day with the row count regardless of action, ordered ascending. -/
def trendForGrant (l : List Vote) (g : String) : List TrendEntry :=
  let rows := l.filter (fun v => v.grant_id = g)
  let days := dedupF (rows.map (fun v => dateOf v.timestamp))
  (List.insertionSort dateLe days).map
    (fun d => ⟨d, rows.countP (fun v => dateOf v.timestamp = d)⟩)

/-- Handler `vote_trend` (`app/routes.py` lines 245-254). -/
def vote_trend (l : List Vote) (g : String) : Except Nat (List TrendEntry) :=
  match validate_id g "grant_id" with
  | .error e => .error e
  | .ok _ => .ok (trendForGrant l g)

/-! ## Rendering helpers (isoformat, JSON, CSV) -/

/-- Left-pad the decimal rendering of `n` with zeros to width `w`. -/
def padNum (w n : Nat) : String :=
  let s := toString n
  String.mk (List.replicate (w - s.length) (Char.ofNat 48)) ++ s

/-- `str(r.day)` for a SQL date: `YYYY-MM-DD`. -/
def dayStr (d : Nat × Nat × Nat) : String :=
  padNum 4 d.1 ++ "-" ++ padNum 2 d.2.1 ++ "-" ++ padNum 2 d.2.2

/-- Python `datetime.isoformat()` on a naive datetime: seconds precision,
with a fractional part only when microseconds are nonzero. -/
def isoformat (t : PyDateTime) : String :=
  dayStr (t.year, t.month, t.day) ++ "T" ++ padNum 2 t.hour ++ ":" ++
    padNum 2 t.minute ++ ":" ++ padNum 2 t.second ++
    (if t.microsecond = 0 then "" else "." ++ padNum 6 t.microsecond)

def hexDigitChar (n : Nat) : Char :=
  if n < 10 then Char.ofNat (48 + n) else Char.ofNat (87 + n)

def hex4 (n : Nat) : String :=
  String.mk [hexDigitChar (n / 4096 % 16), hexDigitChar (n / 256 % 16),
             hexDigitChar (n / 16 % 16), hexDigitChar (n % 16)]

/-- One character as escaped by `json.dumps` (default `ensure_ascii`). -/
def jsonEscapeChar (c : Char) : String :=
  if c = Char.ofNat 34 then String.mk [Char.ofNat 92, Char.ofNat 34]
  else if c = Char.ofNat 92 then String.mk [Char.ofNat 92, Char.ofNat 92]
  else if c = Char.ofNat 10 then String.mk [Char.ofNat 92, Char.ofNat 110]
  else if c = Char.ofNat 13 then String.mk [Char.ofNat 92, Char.ofNat 114]
  else if c = Char.ofNat 9 then String.mk [Char.ofNat 92, Char.ofNat 116]
  else if c = Char.ofNat 8 then String.mk [Char.ofNat 92, Char.ofNat 98]
  else if c = Char.ofNat 12 then String.mk [Char.ofNat 92, Char.ofNat 102]
  else if c.toNat < 32 then String.mk [Char.ofNat 92, Char.ofNat 117] ++ hex4 c.toNat
  else if c.toNat < 127 then String.singleton c
  else if c.toNat < 65536 then String.mk [Char.ofNat 92, Char.ofNat 117] ++ hex4 c.toNat
  else
    let v := c.toNat - 65536
    String.mk [Char.ofNat 92, Char.ofNat 117] ++ hex4 (55296 + v / 1024) ++
      String.mk [Char.ofNat 92, Char.ofNat 117] ++ hex4 (56320 + v % 1024)

/-- A `json.dumps` string literal. -/
def jsonStr (s : String) : String :=
  String.singleton (Char.ofNat 34) ++ String.join (s.data.map jsonEscapeChar) ++
    String.singleton (Char.ofNat 34)

/-- `json.dumps` of one vote object (`app/routes.py` lines 210-217),
default separators. -/
def rowJson (v : Vote) : String :=
  "\x7b" ++ jsonStr "grant_id" ++ ": " ++ jsonStr v.grant_id ++ ", " ++
    jsonStr "researcher_id" ++ ": " ++ jsonStr v.researcher_id ++ ", " ++
    jsonStr "action" ++ ": " ++ jsonStr v.action ++ ", " ++
    jsonStr "timestamp" ++ ": " ++ jsonStr (isoformat v.timestamp) ++ "\x7d"

/-- The chunks yielded after the opening bracket by `iter_votes_json`
(`app/routes.py` lines 205-218): a comma before every row except the
first. -/
def jsonRowChunks : List Vote → Bool → List String
  | [], _ => []
  | v :: vs, true => rowJson v :: jsonRowChunks vs false
  | v :: vs, false => ("," ++ rowJson v) :: jsonRowChunks vs false

/-- The full chunk stream of the JSON export generator. -/
def iterVotesJson (l : List Vote) : List String :=
  "[" :: jsonRowChunks (ledgerScan l) true ++ ["]"]

/-- Concatenation of the chunks yielded by a streaming generator: the
document the client receives. -/
def concatChunks : List String → String
  | [] => ""
  | c :: cs => c ++ concatChunks cs

/-- Handler `export_json` (`app/routes.py` lines 203-221): the streamed
document is the concatenation of the generator chunks. -/
def export_json (l : List Vote) : String :=
  concatChunks (iterVotesJson l)

/-- Spec-side rendering of a JSON array body: the serialized rows joined
by commas.  Used to state that the export renders exactly the scan rows. -/
def commaJoin : List String → String
  | [] => ""
  | [x] => x
  | x :: xs => x ++ "," ++ commaJoin xs

/-- One CSV field under the default excel dialect: quoted (internal quotes
doubled) when it contains a comma, quote, CR or LF. -/
def csvField (s : String) : String :=
  if s.data.any (fun c => c = Char.ofNat 44 || c = Char.ofNat 34 ||
      c = Char.ofNat 10 || c = Char.ofNat 13) then
    String.singleton (Char.ofNat 34) ++
      String.join (s.data.map (fun c =>
        if c = Char.ofNat 34 then String.mk [Char.ofNat 34, Char.ofNat 34]
        else String.singleton c)) ++
      String.singleton (Char.ofNat 34)
  else s

/-- `csv.writer.writerow`: comma-joined fields, CRLF line terminator. -/
def csvLine (fields : List String) : String :=
  String.intercalate "," (fields.map csvField) ++ "\r\n"

def csvHeaderLine : String :=
  csvLine ["grant_id", "researcher_id", "action", "timestamp"]

/-- The chunk stream of `iter_votes_csv` (`app/routes.py` lines 226-238):
the header row, then one chunk per vote row. -/
def iterVotesCsv (l : List Vote) : List String :=
  csvHeaderLine ::
    (ledgerScan l).map
      (fun v => csvLine [v.grant_id, v.researcher_id, v.action, isoformat v.timestamp])

/-- Handler `export_csv` (`app/routes.py` lines 225-241). -/
def export_csv (l : List Vote) : String :=
  concatChunks (iterVotesCsv l)

/-! ## HTTP routing (`app/main.py` includes `router`; `app/routes.py`
decorators in source order) -/

inductive Seg where
  | lit (s : String)
  | param (name : String)
deriving DecidableEq

structure Route where
  method : String
  pattern : List Seg
  handler : String
deriving DecidableEq

/-- Modelled from the spec: the route framework (FastAPI/Starlette, not
part of this repository) matches a template against the path segments,
a literal segment by equality and a `\x7bparam\x7d` template segment
against exactly one path segment, collecting bindings. -/
def matchSegs : List Seg → List String → Option (List (String × String))
  | [], [] => some []
  | Seg.lit s :: ps, x :: xs => if x = s then matchSegs ps xs else none
  | Seg.param n :: ps, x :: xs => (matchSegs ps xs).map (fun b => (n, x) :: b)
  | _, _ => none

/-- The routes of `app/routes.py` in registration (source) order. -/
def routeTable : List Route := [
  ⟨"POST", [.lit "vote"], "record_vote"⟩,
  ⟨"DELETE", [.lit "vote", .param "grant_id", .param "researcher_id"], "delete_vote"⟩,
  ⟨"GET", [.lit "votes", .param "grant_id"], "get_grant_votes"⟩,
  ⟨"GET", [.lit "votes", .lit "summary", .param "grant_id"], "get_grant_votes_summary"⟩,
  ⟨"GET", [.lit "vote", .param "grant_id", .param "researcher_id"], "get_researcher_vote"⟩,
  ⟨"GET", [.lit "votes", .lit "user", .param "grant_id", .param "researcher_id"], "get_researcher_vote_alias"⟩,
  ⟨"GET", [.lit "votes", .lit "researcher", .param "researcher_id"], "get_votes_by_researcher"⟩,
  ⟨"GET", [.lit "votes", .lit "top"], "get_top_grants"⟩,
  ⟨"GET", [.lit "votes", .lit "ratio", .param "grant_id"], "vote_ratio"⟩,
  ⟨"GET", [.lit "researcher", .param "researcher_id", .lit "summary"], "researcher_summary"⟩,
  ⟨"GET", [.lit "votes", .lit "export", .lit "json"], "export_json"⟩,
  ⟨"GET", [.lit "votes", .lit "export", .lit "csv"], "export_csv"⟩,
  ⟨"GET", [.lit "votes", .lit "trend", .param "grant_id"], "vote_trend"⟩,
  ⟨"GET", [.lit "health"], "health_check"⟩,
  ⟨"GET", [.lit "subscriptions", .param "researcher_name"], "check_subscription"⟩,
  ⟨"POST", [.lit "subscriptions"], "create_subscription"⟩,
  ⟨"GET", [.lit "unsubscribe"], "unsubscribe"⟩,
  ⟨"POST", [.lit "researcher-requests"], "create_researcher_request"⟩,
  ⟨"GET", [.lit "researcher-requests"], "get_researcher_requests"⟩,
  ⟨"DELETE", [.lit "researcher-requests", .param "openalex_id"], "delete_researcher_request"⟩]

/-- Modelled from the spec: first-match dispatch in registration order. -/
def dispatch (method : String) (path : List String) :
    List Route → Option (String × List (String × String))
  | [] => none
  | rt :: rest =>
    if rt.method = method then
      match matchSegs rt.pattern path with
      | some b => some (rt.handler, b)
      | none => dispatch method path rest
    else dispatch method path rest

/-- Whether a request dispatches to the top-grants ranking handler. -/
def topGrantsReached (method : String) (path : List String) : Bool :=
  (dispatch method path routeTable).elim false (fun hb => hb.1 == "get_top_grants")

/-! ## Ledger operation sequences (for the uniqueness invariant) -/

/-- A write operation on the ledger. -/
inductive LOp where
  | up (g r a : String) (t : PyDateTime)
  | del (g r : String)

/-- Apply one write; a failed delete (404) leaves the ledger unchanged. -/
def applyOp (l : List Vote) : LOp → List Vote
  | .up g r a t => upsertVote l g r a t
  | .del g r =>
    match deleteVoteRow l g r with
    | .ok l2 => l2
    | .error _ => l

def runOps (l : List Vote) (ops : List LOp) : List Vote :=
  ops.foldl applyOp l

/-- A sequence of upserts on the fixed pair `(g, r)`. -/
def upsertSeq (l : List Vote) (g r : String) (steps : List (String × PyDateTime)) :
    List Vote :=
  steps.foldl (fun acc st => upsertVote acc g r st.1 st.2) l

/-! ## Concrete example data -/

def ts0 : PyDateTime := ⟨2024, 1, 1, 8, 0, 0, 0⟩

def ts1 : PyDateTime := ⟨2024, 1, 1, 20, 0, 0, 0⟩

/-- A grant with 3 likes and 1 dislike. -/
def exampleRatioLedger : List Vote :=
  [⟨"G1", "r1", "like", ts0⟩, ⟨"G1", "r2", "like", ts0⟩,
   ⟨"G1", "r3", "like", ts0⟩, ⟨"G1", "r4", "dislike", ts0⟩]

/-- Grants A (5 likes), B (3 likes), C (8 likes). -/
def exampleTopLedger : List Vote :=
  ((List.range 5).map (fun i => (⟨"A", toString i, "like", ts0⟩ : Vote))) ++
  ((List.range 3).map (fun i => (⟨"B", toString i, "like", ts0⟩ : Vote))) ++
  ((List.range 8).map (fun i => (⟨"C", toString i, "like", ts0⟩ : Vote)))

/-- Two votes on the same grant on the same UTC day, 08:00 and 20:00. -/
def exampleTrendLedger : List Vote :=
  [⟨"G1", "r1", "like", ts0⟩, ⟨"G1", "r2", "dislike", ts1⟩]

/-! ## Lemmas about the ledger write operations -/

theorem isPair_iff {v : Vote} {g r : String} :
    isPair v g r = true ↔ v.grant_id = g ∧ v.researcher_id = r := by
  simp [isPair]

theorem isPair_mk (g r a : String) (t : PyDateTime) :
    isPair ⟨g, r, a, t⟩ g r = true := by
  simp [isPair]

theorem isPair_update (v : Vote) (g r a : String) (t : PyDateTime) :
    isPair { v with action := a, timestamp := t } g r = isPair v g r := rfl

theorem mem_upsert {l : List Vote} {g r a : String} {t : PyDateTime} {u : Vote}
    (h : u ∈ upsertVote l g r a t) :
    u ∈ l ∨ (u.grant_id = g ∧ u.researcher_id = r ∧ u.action = a ∧ u.timestamp = t) := by
  induction l with
  | nil =>
    simp [upsertVote] at h
    subst h
    simp
  | cons v vs ih =>
    by_cases hp : isPair v g r = true
    · rw [upsertVote, if_pos hp] at h
      rcases List.mem_cons.mp h with h2 | h2
      · rcases isPair_iff.mp hp with ⟨h3, h4⟩
        subst h2
        exact Or.inr ⟨h3, h4, rfl, rfl⟩
      · exact Or.inl (List.mem_cons_of_mem _ h2)
    · rw [upsertVote, if_neg hp] at h
      rcases List.mem_cons.mp h with h2 | h2
      · subst h2; exact Or.inl (List.mem_cons_self _ _)
      · rcases ih h2 with h3 | h3
        · exact Or.inl (List.mem_cons_of_mem _ h3)
        · exact Or.inr h3

theorem countPair_cons (v : Vote) (l : List Vote) (g r : String) :
    countPair (v :: l) g r = countPair l g r + if isPair v g r = true then 1 else 0 :=
  List.countP_cons _ _ _

theorem countPair_upsert (l : List Vote) (g r a : String) (t : PyDateTime) :
    countPair (upsertVote l g r a t) g r =
      if countPair l g r = 0 then 1 else countPair l g r := by
  induction l with
  | nil => simp [upsertVote, countPair, List.countP_cons, isPair_mk]
  | cons v vs ih =>
    by_cases hp : isPair v g r = true
    · rw [upsertVote, if_pos hp]
      simp only [countPair_cons, isPair_update, hp, if_true]
      split <;> omega
    · rw [upsertVote, if_neg hp]
      have hb : isPair v g r = false := by
        cases hv : isPair v g r
        · rfl
        · exact absurd hv hp
      simp only [countPair_cons, hb, Bool.false_eq_true, if_false, Nat.add_zero]
      exact ih

theorem countPair_le_one {l : List Vote} (h : uniquePairs l) (g r : String) :
    countPair l g r ≤ 1 := by
  induction l with
  | nil => simp [countPair]
  | cons v vs ih =>
    rcases List.pairwise_cons.mp h with ⟨hrel, htl⟩
    rw [countPair_cons]
    by_cases hp : isPair v g r = true
    · have hz : countPair vs g r = 0 := by
        refine List.countP_eq_zero.mpr ?_
        intro u hu hup
        rcases isPair_iff.mp hp with ⟨h1, h2⟩
        rcases isPair_iff.mp hup with ⟨h3, h4⟩
        exact hrel u hu ⟨h1.trans h3.symm, h2.trans h4.symm⟩
      rw [hz, hp]
      simp
    · have hb : isPair v g r = false := by
        cases hv : isPair v g r
        · rfl
        · exact absurd hv hp
      rw [hb]
      simpa using ih htl

theorem uniquePairs_upsert {l : List Vote} (g r a : String) (t : PyDateTime)
    (h : uniquePairs l) : uniquePairs (upsertVote l g r a t) := by
  induction l with
  | nil => simp [upsertVote, uniquePairs]
  | cons v vs ih =>
    rcases List.pairwise_cons.mp h with ⟨hrel, htl⟩
    by_cases hp : isPair v g r = true
    · rw [upsertVote, if_pos hp]
      refine List.pairwise_cons.mpr ⟨?_, htl⟩
      intro u hu
      exact hrel u hu
    · rw [upsertVote, if_neg hp]
      refine List.pairwise_cons.mpr ⟨?_, ih htl⟩
      intro u hu hC
      rcases mem_upsert hu with h2 | h2
      · exact hrel u h2 hC
      · apply hp
        apply isPair_iff.mpr
        exact ⟨hC.1.trans h2.1, hC.2.trans h2.2.1⟩

theorem upsertSeq_cons (l : List Vote) (g r : String) (st : String × PyDateTime)
    (rest : List (String × PyDateTime)) :
    upsertSeq l g r (st :: rest) = upsertSeq (upsertVote l g r st.1 st.2) g r rest := rfl

theorem upsertSeq_inv (g r : String) :
    ∀ (steps : List (String × PyDateTime)) (l : List Vote), uniquePairs l →
      uniquePairs (upsertSeq l g r steps) ∧
      (steps ≠ [] → countPair (upsertSeq l g r steps) g r = 1) := by
  intro steps
  induction steps with
  | nil => exact fun l h => ⟨h, fun hne => absurd rfl hne⟩
  | cons st rest ih =>
    intro l h
    have h1 : uniquePairs (upsertVote l g r st.1 st.2) := uniquePairs_upsert g r st.1 st.2 h
    have hc : countPair (upsertVote l g r st.1 st.2) g r = 1 := by
      rw [countPair_upsert]
      have := countPair_le_one h g r
      split
      · rfl
      · omega
    rcases ih (upsertVote l g r st.1 st.2) h1 with ⟨hu2, hc2⟩
    refine ⟨by rw [upsertSeq_cons]; exact hu2, ?_⟩
    intro _
    by_cases hrest : rest = []
    · subst hrest
      rw [upsertSeq_cons]
      exact hc
    · rw [upsertSeq_cons]
      exact hc2 hrest

theorem removeFirstVote_sublist (l : List Vote) (g r : String) :
    (removeFirstVote l g r).Sublist l := by
  induction l with
  | nil => simp [removeFirstVote]
  | cons v vs ih =>
    by_cases hp : isPair v g r = true
    · rw [removeFirstVote, if_pos hp]
      exact List.sublist_cons_self v vs
    · rw [removeFirstVote, if_neg hp]
      exact ih.cons₂ v

theorem deleteVoteRow_ok {l l2 : List Vote} {g r : String}
    (h : deleteVoteRow l g r = Except.ok l2) : l2 = removeFirstVote l g r := by
  rw [deleteVoteRow] at h
  cases hf : findVote l g r with
  | none => rw [hf] at h; exact absurd h (by simp)
  | some v => rw [hf] at h; simpa using h.symm

theorem uniquePairs_applyOp {l : List Vote} (h : uniquePairs l) (op : LOp) :
    uniquePairs (applyOp l op) := by
  cases op with
  | up g r a t => exact uniquePairs_upsert g r a t h
  | del g r =>
    rw [applyOp]
    cases hd : deleteVoteRow l g r with
    | ok l2 =>
      rw [deleteVoteRow_ok hd]
      exact List.Pairwise.sublist (removeFirstVote_sublist l g r) h
    | error e => exact h

theorem uniquePairs_runOps {l : List Vote} (h : uniquePairs l) (ops : List LOp) :
    uniquePairs (runOps l ops) := by
  induction ops generalizing l with
  | nil => exact h
  | cons op rest ih => exact ih (uniquePairs_applyOp h op)

/-- C1. For every starting ledger satisfying composite-key uniqueness (the
state the primary key admits), every nonempty sequence of upserts on a
fixed pair leaves exactly one row for that pair (each prefix of the
sequence being itself such a sequence), and every ledger reachable through
upserts and deletes still has at most one row per pair. -/
theorem c1_uniqueness (start : List Vote) (g r : String)
    (steps : List (String × PyDateTime)) (ops : List LOp)
    (hU : uniquePairs start) (hne : steps ≠ []) :
    countPair (upsertSeq start g r steps) g r = 1 ∧
    uniquePairs (upsertSeq start g r steps) ∧
    uniquePairs (runOps start ops) := by
  rcases upsertSeq_inv g r steps start hU with ⟨h1, h2⟩
  exact ⟨h2 hne, h1, uniquePairs_runOps hU ops⟩

theorem c1_uniqueness_witness :
    uniquePairs ([] : List Vote) ∧
    ([(("like", ts0))] : List (String × PyDateTime)) ≠ [] ∧
    countPair (upsertSeq [] "G1" "R1" [("like", ts0)]) "G1" "R1" = 1 := by
  refine ⟨by decide, by decide, ?_⟩
  exact (c1_uniqueness [] "G1" "R1" [("like", ts0)] [] (by decide) (by decide)).1

theorem natTupleLe_refl : ∀ xs : List Nat, natTupleLe xs xs = true := by
  intro xs
  induction xs with
  | nil => rfl
  | cons x rest ih =>
    rw [natTupleLe]
    simp [ih]

theorem dtLe_refl (t : PyDateTime) : dtLe t t = true := natTupleLe_refl _

theorem findVote_upsert (l : List Vote) (g r a : String) (t : PyDateTime) :
    findVote (upsertVote l g r a t) g r = some ⟨g, r, a, t⟩ := by
  induction l with
  | nil =>
    rw [upsertVote, findVote, List.find?_cons]
    rw [isPair_mk]
  | cons v vs ih =>
    by_cases hp : isPair v g r = true
    · rw [upsertVote, if_pos hp, findVote, List.find?_cons]
      rw [isPair_update, hp]
      rcases isPair_iff.mp hp with ⟨h1, h2⟩
      cases v
      simp at h1 h2
      simp [h1, h2]
    · rw [upsertVote, if_neg hp, findVote, List.find?_cons]
      have hb : isPair v g r = false := by
        cases hv : isPair v g r
        · rfl
        · exact absurd hv hp
      rw [hb]
      exact ih

/-- C4. Every write (creation or update) stamps the written row with the
current time of the write: after an upsert at time `t` the pair's row
carries exactly `t`, and under a non-decreasing clock (every timestamp in
the ledger is at most the current time) the new timestamp is never older
than the one previously recorded on the row; all rows still respect the
clock afterwards. -/
theorem c4_timestamp (l : List Vote) (g r a : String) (t : PyDateTime)
    (hclock : ∀ v ∈ l, dtLe v.timestamp t = true) :
    findVote (upsertVote l g r a t) g r = some ⟨g, r, a, t⟩ ∧
    (∀ v, findVote l g r = some v → dtLe v.timestamp t = true) ∧
    (∀ v ∈ upsertVote l g r a t, dtLe v.timestamp t = true) := by
  refine ⟨findVote_upsert l g r a t, ?_, ?_⟩
  · intro v hv
    exact hclock v (List.mem_of_find?_eq_some hv)
  · intro v hv
    rcases mem_upsert hv with h2 | h2
    · exact hclock v h2
    · rw [h2.2.2.2]
      exact dtLe_refl t

theorem c4_timestamp_witness :
    (∀ v ∈ ([⟨"G1", "R1", "like", ts0⟩] : List Vote), dtLe v.timestamp ts1 = true) ∧
    findVote (upsertVote [⟨"G1", "R1", "like", ts0⟩] "G1" "R1" "dislike" ts1) "G1" "R1" =
      some ⟨"G1", "R1", "dislike", ts1⟩ := by
  refine ⟨by decide, ?_⟩
  exact (c4_timestamp [⟨"G1", "R1", "like", ts0⟩] "G1" "R1" "dislike" ts1 (by decide)).1

theorem findVote_eq_none {l : List Vote} {g r : String} :
    findVote l g r = none ↔ ∀ u ∈ l, isPair u g r = false := by
  rw [findVote, List.find?_eq_none]
  constructor
  · intro h u hu
    cases hv : isPair u g r
    · rfl
    · exact absurd hv (h u hu)
  · intro h u hu
    rw [h u hu]
    simp

theorem removeFirst_no_pair {l : List Vote} (h : uniquePairs l) (g r : String) :
    ∀ u ∈ removeFirstVote l g r, isPair u g r = false := by
  induction l with
  | nil => simp [removeFirstVote]
  | cons v vs ih =>
    rcases List.pairwise_cons.mp h with ⟨hrel, htl⟩
    by_cases hp : isPair v g r = true
    · rw [removeFirstVote, if_pos hp]
      intro u hu
      cases hup : isPair u g r
      · rfl
      · rcases isPair_iff.mp hp with ⟨h1, h2⟩
        rcases isPair_iff.mp hup with ⟨h3, h4⟩
        exact absurd ⟨h1.trans h3.symm, h2.trans h4.symm⟩ (hrel u hu)
    · rw [removeFirstVote, if_neg hp]
      intro u hu
      rcases List.mem_cons.mp hu with h2 | h2
      · subst h2
        cases hv : isPair u g r
        · rfl
        · exact absurd hv hp
      · exact ih htl u h2

/-- C6. With the composite key unique, deleting an existing pair removes
its row and acknowledges; deleting an absent pair fails with 404 and (as
an operation) leaves the ledger unchanged; after a successful delete the
lookup is absent and a second delete of the same pair fails with 404. -/
theorem c6_delete (l : List Vote) (g r : String) (hU : uniquePairs l) :
    ((∃ v ∈ l, isPair v g r = true) →
      deleteVoteRow l g r = Except.ok (removeFirstVote l g r)) ∧
    (countPair l g r = 0 →
      deleteVoteRow l g r = Except.error 404 ∧ applyOp l (LOp.del g r) = l) ∧
    (∀ l2, deleteVoteRow l g r = Except.ok l2 →
      lookupAction l2 g r = none ∧ deleteVoteRow l2 g r = Except.error 404) := by
  refine ⟨?_, ?_, ?_⟩
  · rintro ⟨v, hv, hvp⟩
    rw [deleteVoteRow]
    cases hf : findVote l g r with
    | none =>
      rw [findVote_eq_none] at hf
      rw [hf v hv] at hvp
      exact absurd hvp (by simp)
    | some u => rfl
  · intro hz
    have hn : findVote l g r = none := by
      rw [findVote_eq_none]
      intro u hu
      cases hv : isPair u g r
      · rfl
      · exact absurd hv (List.countP_eq_zero.mp hz u hu)
    constructor
    · rw [deleteVoteRow, hn]
    · rw [applyOp, deleteVoteRow, hn]
  · intro l2 h2
    have hl2 : l2 = removeFirstVote l g r := deleteVoteRow_ok h2
    have hnone : findVote l2 g r = none := by
      rw [findVote_eq_none, hl2]
      exact removeFirst_no_pair hU g r
    refine ⟨?_, ?_⟩
    · rw [lookupAction, hnone]
      rfl
    · rw [deleteVoteRow, hnone]

theorem c6_delete_witness :
    uniquePairs ([⟨"G1", "R1", "like", ts0⟩] : List Vote) ∧
    deleteVoteRow ([⟨"G1", "R1", "like", ts0⟩] : List Vote) "G1" "R1" =
      Except.ok (removeFirstVote [⟨"G1", "R1", "like", ts0⟩] "G1" "R1") := by
  refine ⟨by decide, ?_⟩
  exact (c6_delete [⟨"G1", "R1", "like", ts0⟩] "G1" "R1" (by decide)).1
    ⟨⟨"G1", "R1", "like", ts0⟩, by decide, by decide⟩

theorem upsert_upsert_keys (l : List Vote) (g r a : String) (t1 t2 : PyDateTime) :
    (upsertVote (upsertVote l g r a t1) g r a t2).map voteKey =
      (upsertVote l g r a t1).map voteKey := by
  induction l with
  | nil =>
    rw [upsertVote, upsertVote, if_pos (isPair_mk g r a t1)]
    rfl
  | cons v vs ih =>
    by_cases hp : isPair v g r = true
    · rw [upsertVote, if_pos hp, upsertVote]
      rw [if_pos (by rw [isPair_update]; exact hp)]
      rfl
    · rw [upsertVote, if_neg hp, upsertVote, if_neg hp]
      rw [List.map_cons, List.map_cons, ih]

theorem likesCount_keys {l1 l2 : List Vote}
    (h : l1.map voteKey = l2.map voteKey) (g : String) :
    likesCount l1 g = likesCount l2 g ∧ dislikesCount l1 g = dislikesCount l2 g := by
  have key : ∀ (s : String) (l : List Vote),
      (l.filter (fun v => v.grant_id = g)).countP (fun v => v.action = s) =
        (l.map voteKey).countP (fun k => k.1 = g && k.2.2 = s) := by
    intro s l
    rw [List.countP_filter, List.countP_map]
    apply List.countP_congr
    intro v _
    simp [voteKey, Function.comp]
    tauto
  constructor
  · rw [likesCount, likesCount, key, key, h]
  · rw [dislikesCount, dislikesCount, key, key, h]

/-- C9. Upserting the same action twice in a row is a no-op beyond the
timestamp refresh: the rows agree except possibly on timestamps, hence
every per-grant likes/dislikes count equals the one after a single
upsert. -/
theorem c9_idempotent (l : List Vote) (g r a : String) (t1 t2 : PyDateTime) :
    ((upsertVote (upsertVote l g r a t1) g r a t2).map voteKey =
      (upsertVote l g r a t1).map voteKey) ∧
    (∀ g2, get_grant_votes (upsertVote (upsertVote l g r a t1) g r a t2) g2 =
      get_grant_votes (upsertVote l g r a t1) g2) := by
  refine ⟨upsert_upsert_keys l g r a t1 t2, ?_⟩
  intro g2
  rcases likesCount_keys (upsert_upsert_keys l g r a t1 t2) g2 with ⟨h1, h2⟩
  rw [get_grant_votes, get_grant_votes, h1, h2]

/-! ## Validation (C2) -/

theorem pyClassMatch_iff {allowed : Char → Bool}
    (hnl : allowed (Char.ofNat 10) = false) (s : String) :
    pyClassMatch allowed s = true ↔ pyAccepts allowed s := by
  simp only [pyClassMatch, pyAccepts]
  by_cases hc : s.data.getLast? = some (Char.ofNat 10)
  · rw [if_pos hc]
    have hne : s.data ≠ [] := by
      intro h0
      rw [h0] at hc
      exact absurd hc (by simp)
    have hlast : s.data.getLast hne = Char.ofNat 10 := by
      have := List.getLast?_eq_getLast s.data hne
      rw [hc] at this
      exact (Option.some.injEq _ _ ▸ this.symm :)
    have heq : s.data = s.data.dropLast ++ [Char.ofNat 10] := by
      conv_lhs => rw [← List.dropLast_append_getLast hne]
      rw [hlast]
    constructor
    · intro hm
      rw [Bool.and_eq_true] at hm
      rcases hm with ⟨h1, h2⟩
      refine Or.inr ⟨s.data.dropLast, heq, ?_, ?_⟩
      · intro h0
        rw [h0] at h1
        exact absurd h1 (by simp)
      · exact List.all_eq_true.mp h2
    · rintro (⟨h1, h2⟩ | ⟨ts, hts, h1, h2⟩)
      · exfalso
        have : allowed (Char.ofNat 10) = true := by
          apply h2
          rw [heq]
          exact List.mem_append_right _ (List.mem_singleton.mpr rfl)
        rw [hnl] at this
        exact absurd this (by simp)
      · rw [hts, List.dropLast_concat]
        rw [Bool.and_eq_true]
        refine ⟨?_, List.all_eq_true.mpr h2⟩
        cases hemp : ts.isEmpty
        · rfl
        · exact absurd (List.isEmpty_iff.mp hemp) h1
  · rw [if_neg hc]
    constructor
    · intro hm
      rw [Bool.and_eq_true] at hm
      rcases hm with ⟨h1, h2⟩
      refine Or.inl ⟨?_, List.all_eq_true.mp h2⟩
      intro h0
      rw [h0] at h1
      exact absurd h1 (by simp)
    · rintro (⟨h1, h2⟩ | ⟨ts, hts, h1, h2⟩)
      · rw [Bool.and_eq_true]
        refine ⟨?_, List.all_eq_true.mpr h2⟩
        cases hemp : s.data.isEmpty
        · rfl
        · exact absurd (List.isEmpty_iff.mp hemp) h1
      · exfalso
        apply hc
        rw [hts]
        exact List.getLast?_concat _

theorem validate_id_grant (value : String) :
    validate_id value "grant_id" =
      if pyClassMatch grantAllowed (unquote value) then Except.ok (unquote value)
      else Except.error 400 := rfl

theorem validate_id_researcher (value : String) :
    validate_id value "researcher_id" =
      if pyClassMatch researcherAllowed (unquote value) then Except.ok (unquote value)
      else Except.error 400 := rfl

/-- C2 (amended). `validate_id` percent-decodes and accepts exactly the
decoded values that are nonempty and within the kind's character class,
except that one trailing newline after an otherwise valid value is also
accepted (Python dollar-anchor semantics); on success the handlers discard
the decoded value, so the raw request value — not the decoded one — is
what reaches the ledger. -/
theorem c2_validation_amended :
    (∀ value : String,
      (validate_id value "grant_id" = Except.ok (unquote value) ↔
        pyAccepts grantAllowed (unquote value)) ∧
      (validate_id value "grant_id" = Except.error 400 ↔
        ¬ pyAccepts grantAllowed (unquote value)) ∧
      (validate_id value "researcher_id" = Except.ok (unquote value) ↔
        pyAccepts researcherAllowed (unquote value)) ∧
      (validate_id value "researcher_id" = Except.error 400 ↔
        ¬ pyAccepts researcherAllowed (unquote value))) ∧
    (∀ (l : List Vote) (g r a : String) (t : PyDateTime),
      validate_id g "grant_id" = Except.ok (unquote g) →
      validate_id r "researcher_id" = Except.ok (unquote r) →
      (a = "like" ∨ a = "dislike") →
      record_vote l g r a t = Except.ok (upsertVote l g r a t)) := by
  have hg : grantAllowed (Char.ofNat 10) = false := by decide
  have hr : researcherAllowed (Char.ofNat 10) = false := by decide
  constructor
  · intro value
    have hig := pyClassMatch_iff hg (unquote value)
    have hir := pyClassMatch_iff hr (unquote value)
    refine ⟨?_, ?_, ?_, ?_⟩
    · rw [validate_id_grant]
      cases hm : pyClassMatch grantAllowed (unquote value)
      · rw [if_neg (by simp)]
        constructor
        · intro h0; exact absurd h0 (by simp)
        · intro hacc
          have h0 := hig.mpr hacc
          rw [hm] at h0
          exact absurd h0 (by simp)
      · rw [if_pos rfl]
        exact ⟨fun _ => hig.mp hm, fun _ => rfl⟩
    · rw [validate_id_grant]
      cases hm : pyClassMatch grantAllowed (unquote value)
      · rw [if_neg (by simp)]
        constructor
        · intro _ hacc
          have h0 := hig.mpr hacc
          rw [hm] at h0
          exact absurd h0 (by simp)
        · intro _; rfl
      · rw [if_pos rfl]
        constructor
        · intro h0; exact absurd h0 (by simp)
        · intro h0; exact absurd (hig.mp hm) h0
    · rw [validate_id_researcher]
      cases hm : pyClassMatch researcherAllowed (unquote value)
      · rw [if_neg (by simp)]
        constructor
        · intro h0; exact absurd h0 (by simp)
        · intro hacc
          have h0 := hir.mpr hacc
          rw [hm] at h0
          exact absurd h0 (by simp)
      · rw [if_pos rfl]
        exact ⟨fun _ => hir.mp hm, fun _ => rfl⟩
    · rw [validate_id_researcher]
      cases hm : pyClassMatch researcherAllowed (unquote value)
      · rw [if_neg (by simp)]
        constructor
        · intro _ hacc
          have h0 := hir.mpr hacc
          rw [hm] at h0
          exact absurd h0 (by simp)
        · intro _; rfl
      · rw [if_pos rfl]
        constructor
        · intro h0; exact absurd h0 (by simp)
        · intro h0; exact absurd (hir.mp hm) h0
  · intro l g r a t hvg hvr ha
    rw [record_vote, hvg, hvr]
    rcases ha with ha | ha <;> rw [ha] <;> rfl

/-- C2 counterexample to the claim as stated: the handler stores the raw
request value `a%20b`, not its percent-decoding `a b`; and the decoded
value `abc` followed by a newline contains a character outside the grant
class yet passes validation. -/
theorem c2_validation_counterexample :
    record_vote [] "g1" "a%20b" "like" ts0 =
      Except.ok [⟨"g1", "a%20b", "like", ts0⟩] ∧
    unquote "a%20b" = "a b" ∧
    ("a%20b" == "a b") = false ∧
    validate_id "abc\n" "grant_id" = Except.ok "abc\n" ∧
    ((unquote "abc\n").data.all grantAllowed) = false :=
  ⟨rfl, rfl, by decide, rfl, by decide⟩

/-! ## Ratio (C3) -/

/-- C3. For a grant id that passes validation, the ratio endpoint always
answers (never an error): likes and dislikes are the per-grant counts,
percentages are `count/(likes+dislikes)*100` when the total is positive,
and a grant with zero rows yields all-zero counts and percentages; a grant
with 3 likes and 1 dislike yields 75 and 25. -/
theorem c3_ratio (l : List Vote) (g : String)
    (h : (validate_id g "grant_id").isOk = true) :
    vote_ratio_route l g = Except.ok (ratioForGrant l g) ∧
    (ratioForGrant l g).likes = likesCount l g ∧
    (ratioForGrant l g).dislikes = dislikesCount l g ∧
    (0 < likesCount l g + dislikesCount l g →
      (ratioForGrant l g).like_percentage =
        (likesCount l g : ℚ) / ((likesCount l g + dislikesCount l g : Nat) : ℚ) * 100 ∧
      (ratioForGrant l g).dislike_percentage =
        (dislikesCount l g : ℚ) / ((likesCount l g + dislikesCount l g : Nat) : ℚ) * 100) ∧
    (l.countP (fun v => v.grant_id = g) = 0 →
      ratioForGrant l g = ⟨g, 0, 0, 0, 0⟩) ∧
    vote_ratio_route exampleRatioLedger "G1" = Except.ok ⟨"G1", 3, 1, 75, 25⟩ := by
  refine ⟨?_, rfl, rfl, ?_, ?_, ?_⟩
  · rw [vote_ratio_route]
    cases hv : validate_id g "grant_id" with
    | error e => rw [hv] at h; simp [Except.isOk, Except.toBool] at h
    | ok d => rfl
  · intro hpos
    have hne : ¬(likesCount l g + dislikesCount l g = 0) := by omega
    constructor
    · simp only [ratioForGrant]
      rw [if_neg hne]
    · simp only [ratioForGrant]
      rw [if_neg hne]
  · intro hz
    have hfil : l.filter (fun v => v.grant_id = g) = [] := by
      apply List.filter_eq_nil_iff.mpr
      exact List.countP_eq_zero.mp hz
    have h1 : likesCount l g = 0 := by rw [likesCount, hfil]; rfl
    have h2 : dislikesCount l g = 0 := by rw [dislikesCount, hfil]; rfl
    simp only [ratioForGrant, h1, h2]
    rfl
  · have h1 : likesCount exampleRatioLedger "G1" = 3 := by decide
    have h2 : dislikesCount exampleRatioLedger "G1" = 1 := by decide
    rw [vote_ratio_route]
    have hval : validate_id "G1" "grant_id" = Except.ok "G1" := rfl
    rw [hval]
    have : ratioForGrant exampleRatioLedger "G1" = ⟨"G1", 3, 1, 75, 25⟩ := by
      simp only [ratioForGrant, h1, h2]
      norm_num
    rw [this]

theorem c3_ratio_witness :
    (validate_id "G1" "grant_id").isOk = true ∧
    vote_ratio_route exampleRatioLedger "G1" = Except.ok ⟨"G1", 3, 1, 75, 25⟩ :=
  ⟨by decide, (c3_ratio exampleRatioLedger "G1" (by decide)).2.2.2.2.2⟩

/-! ## Export streaming (C5) -/

theorem concatChunks_nil : concatChunks [] = "" := rfl

theorem concatChunks_cons (c : String) (cs : List String) :
    concatChunks (c :: cs) = c ++ concatChunks cs := rfl

theorem concatChunks_append_single (cs : List String) (d : String) :
    concatChunks (cs ++ [d]) = concatChunks cs ++ d := by
  induction cs with
  | nil => simp [concatChunks, String.append_empty, String.empty_append]
  | cons c rest ih =>
    rw [List.cons_append, concatChunks_cons, concatChunks_cons, ih,
      String.append_assoc]

theorem jsonRowChunks_false (vs : List Vote) :
    jsonRowChunks vs false = vs.map (fun v => "," ++ rowJson v) := by
  induction vs with
  | nil => rfl
  | cons v rest ih => rw [jsonRowChunks, List.map_cons, ih]

theorem commaJoin_cons₂ (x y : String) (ys : List String) :
    commaJoin (x :: y :: ys) = x ++ "," ++ commaJoin (y :: ys) := rfl

theorem commaJoin_concat (x : String) (xs : List String) :
    x ++ concatChunks (xs.map (fun s => "," ++ s)) = commaJoin (x :: xs) := by
  induction xs generalizing x with
  | nil => simp [concatChunks, commaJoin, String.append_empty]
  | cons y ys ih =>
    rw [List.map_cons, concatChunks_cons, commaJoin_cons₂]
    rw [← ih y]
    simp [String.append_assoc]

theorem jsonRowChunks_concat (l : List Vote) :
    concatChunks (jsonRowChunks l true) = commaJoin (l.map rowJson) := by
  cases l with
  | nil => rfl
  | cons v rest =>
    rw [jsonRowChunks, jsonRowChunks_false, concatChunks_cons,
      List.map_cons, ← commaJoin_concat, List.map_map]
    rfl

/-- C5. Both exports render exactly the rows of the full ledger scan in
scan order: the JSON document is the bracketed comma-join of the per-row
JSON serializations and the CSV document is the header line followed by
one CSV line per row; the empty ledger yields the document consisting of
only the two brackets, and a header-only CSV. -/
theorem c5_export (l : List Vote) :
    export_json l = "[" ++ commaJoin ((ledgerScan l).map rowJson) ++ "]" ∧
    export_csv l = csvHeaderLine ++ concatChunks ((ledgerScan l).map
      (fun v => csvLine [v.grant_id, v.researcher_id, v.action, isoformat v.timestamp])) ∧
    export_json [] = "[]" ∧
    export_csv [] = csvHeaderLine ∧
    csvHeaderLine = "grant_id,researcher_id,action,timestamp\r\n" := by
  refine ⟨?_, ?_, by decide, by decide, by decide⟩
  · rw [export_json, iterVotesJson, List.cons_append, concatChunks_cons,
      concatChunks_append_single]
    rw [jsonRowChunks_concat, ledgerScan, String.append_assoc]
  · rfl

/-! ## Grouping and sorting (C7, C8) -/

theorem mem_dedupAux {α : Type} [DecidableEq α] (xs : List α) :
    ∀ (seen : List α) (a : α), a ∈ dedupAux xs seen ↔ a ∈ xs ∧ a ∉ seen := by
  induction xs with
  | nil => intro seen a; simp [dedupAux]
  | cons x rest ih =>
    intro seen a
    by_cases hx : x ∈ seen
    · rw [dedupAux, if_pos hx, ih]
      constructor
      · rintro ⟨h1, h2⟩
        exact ⟨List.mem_cons_of_mem _ h1, h2⟩
      · rintro ⟨h1, h2⟩
        rcases List.mem_cons.mp h1 with h3 | h3
        · subst h3; exact absurd hx h2
        · exact ⟨h3, h2⟩
    · rw [dedupAux, if_neg hx]
      constructor
      · intro h1
        rcases List.mem_cons.mp h1 with h3 | h3
        · subst h3; exact ⟨List.mem_cons_self _ _, hx⟩
        · rcases (ih (x :: seen) a).mp h3 with ⟨h4, h5⟩
          refine ⟨List.mem_cons_of_mem _ h4, fun h6 => h5 (List.mem_cons_of_mem _ h6)⟩
      · rintro ⟨h1, h2⟩
        rcases List.mem_cons.mp h1 with h3 | h3
        · subst h3; exact List.mem_cons_self _ _
        · by_cases hax : a = x
          · subst hax; exact List.mem_cons_self _ _
          · refine List.mem_cons_of_mem _ ((ih (x :: seen) a).mpr ⟨h3, ?_⟩)
            intro h4
            rcases List.mem_cons.mp h4 with h5 | h5
            · exact hax h5
            · exact h2 h5

theorem mem_dedupF {α : Type} [DecidableEq α] (xs : List α) (a : α) :
    a ∈ dedupF xs ↔ a ∈ xs := by
  rw [dedupF, mem_dedupAux]
  simp

theorem nodup_dedupAux {α : Type} [DecidableEq α] (xs : List α) :
    ∀ seen : List α, (dedupAux xs seen).Nodup := by
  induction xs with
  | nil => intro seen; simp [dedupAux]
  | cons x rest ih =>
    intro seen
    by_cases hx : x ∈ seen
    · rw [dedupAux, if_pos hx]
      exact ih seen
    · rw [dedupAux, if_neg hx]
      refine List.nodup_cons.mpr ⟨?_, ih (x :: seen)⟩
      intro hmem
      exact ((mem_dedupAux rest (x :: seen) x).mp hmem).2 (List.mem_cons_self _ _)

theorem nodup_dedupF {α : Type} [DecidableEq α] (xs : List α) :
    (dedupF xs).Nodup := nodup_dedupAux xs []

theorem natTupleLe_cons_iff {a b : Nat} {as bs : List Nat} :
    natTupleLe (a :: as) (b :: bs) = true ↔
      a < b ∨ (a = b ∧ natTupleLe as bs = true) := by
  rw [natTupleLe]
  split_ifs with h1 h2
  · simp [h1]
  · constructor
    · intro h0; exact absurd h0 (by simp)
    · rintro (h0 | ⟨h0, _⟩) <;> (exfalso; omega)
  · have : a = b := by omega
    simp [this, Nat.lt_irrefl]

theorem natTupleLe_total : ∀ as bs : List Nat,
    natTupleLe as bs = true ∨ natTupleLe bs as = true := by
  intro as
  induction as with
  | nil => intro bs; left; rfl
  | cons a rest ih =>
    intro bs
    cases bs with
    | nil => right; rfl
    | cons b bs2 =>
      by_cases h1 : a < b
      · left; exact natTupleLe_cons_iff.mpr (Or.inl h1)
      · by_cases h2 : b < a
        · right; exact natTupleLe_cons_iff.mpr (Or.inl h2)
        · have hab : a = b := by omega
          rcases ih bs2 with h3 | h3
          · left; exact natTupleLe_cons_iff.mpr (Or.inr ⟨hab, h3⟩)
          · right; exact natTupleLe_cons_iff.mpr (Or.inr ⟨hab.symm, h3⟩)

theorem natTupleLe_trans : ∀ as bs cs : List Nat,
    natTupleLe as bs = true → natTupleLe bs cs = true → natTupleLe as cs = true := by
  intro as
  induction as with
  | nil => intro bs cs _ _; rfl
  | cons a rest ih =>
    intro bs cs h1 h2
    cases bs with
    | nil => rw [natTupleLe] at h1; exact absurd h1 (by simp)
    | cons b bs2 =>
      cases cs with
      | nil => rw [natTupleLe] at h2; exact absurd h2 (by simp)
      | cons c cs2 =>
        rcases natTupleLe_cons_iff.mp h1 with h3 | ⟨h3, h4⟩ <;>
          rcases natTupleLe_cons_iff.mp h2 with h5 | ⟨h5, h6⟩
        · exact natTupleLe_cons_iff.mpr (Or.inl (by omega))
        · exact natTupleLe_cons_iff.mpr (Or.inl (by omega))
        · exact natTupleLe_cons_iff.mpr (Or.inl (by omega))
        · exact natTupleLe_cons_iff.mpr (Or.inr ⟨h3.trans h5, ih bs2 cs2 h4 h6⟩)

instance : IsTotal (Nat × Nat × Nat) dateLe :=
  ⟨fun _ _ => natTupleLe_total _ _⟩

instance : IsTrans (Nat × Nat × Nat) dateLe :=
  ⟨fun _ _ _ h1 h2 => natTupleLe_trans _ _ _ h1 h2⟩

instance : IsTotal GrantCounts byLikesDesc :=
  ⟨fun a b => Nat.le_total b.likes a.likes⟩

instance : IsTrans GrantCounts byLikesDesc :=
  ⟨fun _ _ _ h1 h2 => Nat.le_trans h2 h1⟩

/-- C7. `get_top_grants` returns per-grant aggregates ordered by likes
descending, truncated to `limit` entries (a positive integer, defaulting
to 10); with grants A (5 likes), B (3), C (8), the top 2 are C then A. -/
theorem c7_top_grants (l : List Vote) (limit : Nat) (h : 0 < limit) :
    List.Pairwise (fun x y : GrantCounts => y.likes ≤ x.likes)
      (get_top_grants l limit) ∧
    (get_top_grants l limit).length ≤ limit ∧
    (∀ e ∈ get_top_grants l limit,
      e = get_grant_votes l e.grant_id ∧
      e.grant_id ∈ l.map (fun v => v.grant_id)) ∧
    get_top_grants_default l = get_top_grants l 10 ∧
    get_top_grants exampleTopLedger 2 = [⟨"C", 8, 0⟩, ⟨"A", 5, 0⟩] := by
  refine ⟨?_, ?_, ?_, rfl, by decide⟩
  · have hs : List.Pairwise byLikesDesc
        (List.insertionSort byLikesDesc (grantGroups l)) :=
      List.sorted_insertionSort byLikesDesc (grantGroups l)
    exact List.Pairwise.sublist (List.take_sublist _ _) hs
  · exact List.length_take_le _ _
  · intro e he
    have h1 : e ∈ List.insertionSort byLikesDesc (grantGroups l) :=
      List.mem_of_mem_take he
    have h2 : e ∈ grantGroups l :=
      (List.perm_insertionSort byLikesDesc (grantGroups l)).mem_iff.mp h1
    rcases List.mem_map.mp h2 with ⟨g2, hg2, he2⟩
    have hgid : e.grant_id = g2 := by rw [← he2]; rfl
    constructor
    · rw [hgid, he2]
    · rw [hgid]
      exact (mem_dedupF _ _).mp hg2

theorem c7_top_grants_witness :
    0 < 2 ∧ get_top_grants exampleTopLedger 2 = [⟨"C", 8, 0⟩, ⟨"A", 5, 0⟩] :=
  ⟨by decide, (c7_top_grants exampleTopLedger 2 (by decide)).2.2.2.2⟩

/-- C8. For a grant id that passes validation, the trend endpoint answers
with the grant's rows grouped by the UTC calendar day of their timestamp:
one entry per day, strictly ascending by day, whose count is the number of
the grant's rows on that day regardless of action; two votes on
2024-01-01 at 08:00 and 20:00 UTC give the single entry for day
2024-01-01 with count 2. -/
theorem c8_trend (l : List Vote) (g : String)
    (h : (validate_id g "grant_id").isOk = true) :
    vote_trend l g = Except.ok (trendForGrant l g) ∧
    List.Pairwise (fun x y : TrendEntry => dateLe x.day y.day ∧ x.day ≠ y.day)
      (trendForGrant l g) ∧
    (∀ e ∈ trendForGrant l g,
      e.count = l.countP (fun v => decide (v.grant_id = g ∧ dateOf v.timestamp = e.day)) ∧
      ∃ v ∈ l, v.grant_id = g ∧ dateOf v.timestamp = e.day) ∧
    (∀ v ∈ l, v.grant_id = g →
      ∃ e ∈ trendForGrant l g, e.day = dateOf v.timestamp) ∧
    trendForGrant exampleTrendLedger "G1" = [⟨(2024, 1, 1), 2⟩] ∧
    dayStr (2024, 1, 1) = "2024-01-01" := by
  have hsorted : List.Pairwise dateLe
      (List.insertionSort dateLe (dedupF ((l.filter (fun v => v.grant_id = g)).map
        (fun v => dateOf v.timestamp)))) :=
    List.sorted_insertionSort dateLe _
  have hperm := List.perm_insertionSort dateLe
    (dedupF ((l.filter (fun v => v.grant_id = g)).map (fun v => dateOf v.timestamp)))
  have hnodup : (List.insertionSort dateLe (dedupF ((l.filter (fun v => v.grant_id = g)).map
      (fun v => dateOf v.timestamp)))).Nodup :=
    hperm.nodup_iff.mpr (nodup_dedupF _)
  refine ⟨?_, ?_, ?_, ?_, by decide, by decide⟩
  · rw [vote_trend]
    cases hv : validate_id g "grant_id" with
    | error e => rw [hv] at h; simp [Except.isOk, Except.toBool] at h
    | ok d => rfl
  · rw [trendForGrant]
    refine List.pairwise_map.mpr ?_
    exact hsorted.and hnodup
  · intro e he
    rw [trendForGrant] at he
    rcases List.mem_map.mp he with ⟨d, hd, hde⟩
    constructor
    · rw [← hde]
      show (l.filter (fun v => v.grant_id = g)).countP
          (fun v => dateOf v.timestamp = d) = _
      rw [List.countP_filter]
      apply List.countP_congr
      intro v _
      constructor
      · intro hv
        rw [Bool.and_eq_true] at hv
        simp only [decide_eq_true_eq] at hv ⊢
        exact ⟨hv.2, hv.1⟩
      · intro hv
        rw [Bool.and_eq_true]
        simp only [decide_eq_true_eq] at hv ⊢
        exact ⟨hv.2, hv.1⟩
    · have hd2 : d ∈ dedupF ((l.filter (fun v => v.grant_id = g)).map
          (fun v => dateOf v.timestamp)) := hperm.mem_iff.mp hd
      rcases List.mem_map.mp ((mem_dedupF _ _).mp hd2) with ⟨v, hv, hvd⟩
      rcases List.mem_filter.mp hv with ⟨hvl, hvg⟩
      refine ⟨v, hvl, by simpa using hvg, ?_⟩
      rw [hvd, ← hde]
  · intro v hv hvg
    rw [trendForGrant]
    have hvf : v ∈ l.filter (fun v => v.grant_id = g) :=
      List.mem_filter.mpr ⟨hv, by simpa using hvg⟩
    have hd : dateOf v.timestamp ∈ dedupF ((l.filter (fun v => v.grant_id = g)).map
        (fun v => dateOf v.timestamp)) :=
      (mem_dedupF _ _).mpr (List.mem_map_of_mem _ hvf)
    have hd2 := hperm.mem_iff.mpr hd
    exact ⟨⟨dateOf v.timestamp, _⟩, List.mem_map_of_mem _ hd2, rfl⟩

theorem c8_trend_witness :
    (validate_id "G1" "grant_id").isOk = true ∧
    trendForGrant exampleTrendLedger "G1" = [⟨(2024, 1, 1), 2⟩] :=
  ⟨by decide, (c8_trend exampleTrendLedger "G1" (by decide)).2.2.2.2.1⟩

/-! ## Routing (C10) -/

theorem dispatch_some :
    ∀ (rts : List Route) (m : String) (p : List String) (h : String)
      (b : List (String × String)),
      dispatch m p rts = some (h, b) →
      ∃ rt ∈ rts, rt.method = m ∧ rt.handler = h ∧ matchSegs rt.pattern p = some b := by
  intro rts
  induction rts with
  | nil =>
    intro m p h b hd
    rw [dispatch] at hd
    exact absurd hd (by simp)
  | cons rt rest ih =>
    intro m p h b hd
    rw [dispatch] at hd
    by_cases hm : rt.method = m
    · rw [if_pos hm] at hd
      cases hmt : matchSegs rt.pattern p with
      | some b2 =>
        rw [hmt] at hd
        have hinj := Option.some.inj hd
        have hh : rt.handler = h := congrArg Prod.fst hinj
        have hb : b2 = b := congrArg Prod.snd hinj
        exact ⟨rt, List.mem_cons_self _ _, hm, hh, by rw [hmt, hb]⟩
      | none =>
        rw [hmt] at hd
        rcases ih m p h b hd with ⟨rt2, hmem, hrest⟩
        exact ⟨rt2, List.mem_cons_of_mem _ hmem, hrest⟩
    · rw [if_neg hm] at hd
      rcases ih m p h b hd with ⟨rt2, hmem, hrest⟩
      exact ⟨rt2, List.mem_cons_of_mem _ hmem, hrest⟩

theorem route_handler_unique :
    ∀ rt ∈ routeTable, rt.handler = "get_top_grants" →
      rt = ⟨"GET", [Seg.lit "votes", Seg.lit "top"], "get_top_grants"⟩ := by
  decide

theorem matchSegs_nil_cons (x : String) (xs : List String) :
    matchSegs [] (x :: xs) = none := rfl

theorem matchSegs_cons_nil (sg : Seg) (ps : List Seg) :
    matchSegs (sg :: ps) [] = none := by
  cases sg <;> rfl

theorem matchSegs_litlit {s1 s2 : String} {p : List String}
    {b : List (String × String)}
    (h : matchSegs [Seg.lit s1, Seg.lit s2] p = some b) :
    p = [s1, s2] ∧ b = [] := by
  match p with
  | [] =>
    rw [matchSegs_cons_nil] at h
    exact absurd h (by simp)
  | [x] =>
    rw [matchSegs] at h
    by_cases hx : x = s1
    · rw [if_pos hx, matchSegs_cons_nil] at h
      exact absurd h (by simp)
    · rw [if_neg hx] at h
      exact absurd h (by simp)
  | x :: y :: rest =>
    rw [matchSegs] at h
    by_cases hx : x = s1
    · rw [if_pos hx, matchSegs] at h
      by_cases hy : y = s2
      · rw [if_pos hy] at h
        match rest with
        | [] =>
          rw [matchSegs] at h
          have hb := (Option.some.inj h).symm
          exact ⟨by rw [hx, hy], hb⟩
        | z :: rest2 =>
          rw [matchSegs_nil_cons] at h
          exact absurd h (by simp)
      · rw [if_neg hy] at h
        exact absurd h (by simp)
    · rw [if_neg hx] at h
      exact absurd h (by simp)

/-- C10. The route `GET /votes/\x7bgrant_id\x7d` is registered before
`GET /votes/top` and matches the single segment `top`, so a request for
`GET /votes/top` dispatches to the per-grant count handler with
`grant_id = "top"` (which passes grant validation); no request at all
dispatches to the top-grants ranking handler. -/
theorem c10_route_shadowing :
    dispatch "GET" ["votes", "top"] routeTable =
      some ("get_grant_votes", [("grant_id", "top")]) ∧
    validate_id "top" "grant_id" = Except.ok "top" ∧
    ∀ (m : String) (p : List String), topGrantsReached m p = false := by
  refine ⟨rfl, rfl, ?_⟩
  intro m p
  rw [topGrantsReached]
  cases hd : dispatch m p routeTable with
  | none => rfl
  | some hb =>
    obtain ⟨h, b⟩ := hb
    show (h == "get_top_grants") = false
    cases hbe : h == "get_top_grants"
    · rfl
    · exfalso
      have hh : h = "get_top_grants" := eq_of_beq hbe
      subst hh
      rcases dispatch_some routeTable m p _ b hd with ⟨rt, hmem, hm, hhandler, hmatch⟩
      have hrt := route_handler_unique rt hmem hhandler
      subst hrt
      rcases matchSegs_litlit hmatch with ⟨hp, hb2⟩
      subst hp
      subst hb2
      rw [← hm] at hd
      have hgv : dispatch "GET" ["votes", "top"] routeTable =
          some ("get_grant_votes", [("grant_id", "top")]) := rfl
      rw [hgv] at hd
      have := congrArg Prod.fst (Option.some.inj hd)
      exact absurd this (by decide)

end GrantVotes
